import Mathlib

/-!
Verification of the trimming engine of `src/lib/muscle.py` (class `Align`).

The Python module is shallowly embedded below: each method of the class
becomes a pure Lean function over an explicit alignment value.  Python lists
become `List`, Python ints become `ℕ`/`ℤ` as appropriate, Python floats
(only thresholds, proportions and windowed averages appear) become `ℚ`,
Python `None` becomes `Option.none`, and the exceptions that the code can
actually raise (`TypeError` from `len()` on an `int`, `NameError` from the
unbound name `sequence` in `_record_formatter`, `AttributeError` from
appending to a `None` alignment) become an explicit `Except` error channel.
-/

namespace Muscle

-- Batteries seals the rational-number operations; reopening them lets the
-- concrete claim instances evaluate by `decide` inside the kernel.
attribute [local semireducible] Rat.add Rat.mul Rat.inv Rat.sub

/-- A BioPython `SeqRecord`: identifier, name, description and the symbol
sequence.  Per the alignment invariant, all records of one alignment share
one sequence length. -/
structure SeqRec where
  id : String
  name : String
  description : String
  seq : List Char
deriving DecidableEq, Repr

/-- An alignment is its ordered list of records (`self._records` of the
BioPython `Alignment` object). -/
abbrev Alignment := List SeqRec

/-- `get_alignment_length`: the maximum record length (BioPython's
`Bio.Align.Generic.Alignment.get_alignment_length` folds `max` over the
records starting from 0). -/
def alignLength (a : Alignment) : ℕ :=
  a.foldl (fun m r => max m r.seq.length) 0

/-- `get_column(col)`: the symbols at column `c`, one per record.  BioPython
indexes each record's sequence at `c`; under the equal-length invariant the
default of `getD` is never consulted in any theorem below. -/
def getColumn (a : Alignment) (c : ℕ) : List Char :=
  a.map (fun r => r.seq.getD c '?')

/-- Resolve a Python slice endpoint: a negative index counts from the end
(clamped at 0), a non-negative index is clamped at the length. -/
def pyIdx (n : ℕ) (i : ℤ) : ℕ :=
  if i < 0 then (i + n).toNat else min i.toNat n

/-- Python `l[a:b]` for list/sequence values. -/
def pySlice {α : Type} (l : List α) (a b : ℤ) : List α :=
  (l.take (pyIdx l.length b)).drop (pyIdx l.length a)

/-- Python `l[:b]`. -/
def pySliceTo {α : Type} (l : List α) (b : ℤ) : List α :=
  l.take (pyIdx l.length b)

/-- Python `l[a:]`. -/
def pySliceFrom {α : Type} (l : List α) (a : ℤ) : List α :=
  l.drop (pyIdx l.length a)

/-- `sequence[start:end]` on a `SeqRecord`: BioPython record slicing keeps
`id`, `name` and `description` and slices the symbol sequence. -/
def sliceRec (r : SeqRec) (a b : ℤ) : SeqRec :=
  { r with seq := pySlice r.seq a b }

/-- The runtime errors the trimming code can actually raise. -/
inductive PyErr where
  | typeError
  | nameError
  | attributeError
deriving DecidableEq, Repr

instance exceptDecEq {ε α : Type} [DecidableEq ε] [DecidableEq α] :
    DecidableEq (Except ε α)
  | Except.error e1, Except.error e2 =>
    if h : e1 = e2 then isTrue (by rw [h])
    else isFalse (fun hc => h (by injection hc))
  | Except.error _, Except.ok _ => isFalse (fun hc => Except.noConfusion hc)
  | Except.ok _, Except.error _ => isFalse (fun hc => Except.noConfusion hc)
  | Except.ok v1, Except.ok v2 =>
    if h : v1 = v2 then isTrue (by rw [h])
    else isFalse (fun hc => h (by injection hc))

/-- The `loc` argument of `_base_checker`: either the scalar midpoint anchor
(`len(sequence)/2`, an `int`) or the probe-location pair `self.ploc`. -/
inductive Loc where
  | scalar : ℕ → Loc
  | pair : ℕ × ℕ → Loc
deriving DecidableEq, Repr

/-- `_base_checker(bases, sequence, loc)`.  The guard `if len(loc) == 1`
calls `len()` on `loc`; when the midpoint code path passes the integer
anchor, `len(int)` raises `TypeError` before any comparison happens.  On a
pair, the check returns `True` when `bases` exceeds neither flank length
(`len(sequence.seq[:loc[0]])` and `len(sequence.seq[loc[1]:])`), and falls
through returning `None` otherwise. -/
def baseChecker (bases : ℕ) (s : List Char) : Loc → Except PyErr (Option Bool)
  | Loc.scalar _ => Except.error PyErr.typeError
  | Loc.pair (l0, l1) =>
      Except.ok
        (if bases ≤ (pySliceTo s (l0 : ℤ)).length ∧
            bases ≤ (pySliceFrom s (l1 : ℤ)).length
         then some true else none)

/-- `_record_formatter(temp)` builds a `SeqRecord(temp)` and then copies
`id`, `name`, `description` from `sequence` — but `sequence` is not a
parameter of the method, not a local, and not a module-level global of
muscle.py (it only exists as a loop variable inside `trim_alignment`), so
the first attribute copy `temp_record.id = sequence.id` raises `NameError`
whenever this helper is called. -/
def recordFormatter (_temp : List Char) : Except PyErr SeqRec :=
  Except.error PyErr.nameError

/-- What `_record_formatter` was evidently intended to do: rebuild the
record around `temp` keeping the metadata of the record being processed. -/
def intendedRecordFormatter (r : SeqRec) (temp : List Char) : SeqRec :=
  { r with seq := temp }

/-- `get_probe_location`: scan records in reverse order for `id == 'probe'`,
then `ploc = (end of the leading gap run, start of the trailing gap run)`.
Returns `none` when no probe record exists (the Python code would leave
`start`/`end` unbound there). -/
def getProbeLocation (a : Alignment) : Option (ℕ × ℕ) :=
  (a.reverse.find? (fun r => r.id == "probe")).map (fun r =>
    ((r.seq.takeWhile (fun ch => ch == '-')).length,
      r.seq.length - (r.seq.reverse.takeWhile (fun ch => ch == '-')).length))

/-- `_find_ends(forward)`: walk the columns (forward or reversed); break at
the first column containing no gap symbol and return it; when every column
contains a gap the loop runs out and the loop variable holds the last
visited column. -/
def findEndsCols (a : Alignment) (forward : Bool) : List ℕ :=
  if forward then List.range (alignLength a)
  else (List.range (alignLength a)).reverse

/-- Continuation of `_find_ends`: the first column of the scan order whose
column has no gap, else the loop variable's final value. -/
def findEnds (a : Alignment) (forward : Bool) : ℕ :=
  match (findEndsCols a forward).find?
      (fun c => !(decide ('-' ∈ getColumn a c))) with
  | some c => c
  | none => ((findEndsCols a forward).getLast?).getD 0

/-- `int(round(proportion * members, 0))` of Python 2: rounding half away
from zero, which for the non-negative arguments used here is
`⌊x + 1/2⌋`. -/
def gapAllowance (proportion : ℚ) (members : ℕ) : ℤ :=
  ⌊proportion * (members : ℚ) + 1 / 2⌋

/-- Per-column conservation indicator of the plain `running_average` branch:
strip gaps when the gap count is within the proportional allowance, then
test whether more than one distinct symbol remains. -/
def columnIndicator (proportion : ℚ) (members : ℕ) (col : List Char) : ℕ :=
  let colList := if ((col.count '-' : ℤ)) ≤ gapAllowance proportion members
                 then col.filter (fun ch => !(ch == '-')) else col
  if 1 < colList.dedup.length then 0 else 1

/-- Per-column indicator of the `running_probe` branch: delete the symbol at
the probe index `k` from the column, then test distinctness. -/
def columnIndicatorProbe (k : ℕ) (col : List Char) : ℕ :=
  let colList := col.eraseIdx k
  if 1 < colList.dedup.length then 0 else 1

/-- The `differences` list of `running_average`: one 0/1 indicator per
column. -/
def differencesList (proportion : ℚ) (k : ℕ) (runningProbe : Bool)
    (a : Alignment) : List ℕ :=
  (List.range (alignLength a)).map (fun c =>
    if runningProbe then columnIndicatorProbe k (getColumn a c)
    else columnIndicator proportion a.length (getColumn a c))

/-- `numpy.convolve(d, w)` in its default full mode:
`out[i] = Σ_j d[j] · w[i−j]`, output length `|d| + |w| − 1`. -/
def convFull (d w : List ℚ) : List ℚ :=
  (List.range (d.length + w.length - 1)).map (fun i =>
    ((List.range (i + 1)).map (fun j => d.getD j 0 * w.getD (i - j) 0)).sum)

/-- `numpy.convolve(differences, weight)[window_size-1:-(window_size-1)]`
with `weight = repeat(1/W, W)`: the windowed averages.  Note the Python
slice endpoints are `int`s, so `W = 1` gives `[0:0]` (empty). -/
def runningAvgValues (d : List ℕ) (W : ℕ) : List ℚ :=
  pySlice
    (convFull (d.map (fun x : ℕ => (x : ℚ))) (List.replicate W (1 / (W : ℚ))))
    ((W : ℤ) - 1) (-((W : ℤ) - 1))

/-- `numpy.where(running_average >= threshold)[0]`: the indices of the
windowed averages meeting the threshold, in increasing order. -/
def goodIndices (vals : List ℚ) (t : ℚ) : List ℕ :=
  (List.range vals.length).filter (fun i => decide (t ≤ vals.getD i 0))

/-- `running_average(window_size, threshold, proportion, k, running_probe)`:
`good[0]` and `good[-1] + window_size`, or `(None, None)` when `good` is
empty (the `IndexError` handler). -/
def runningAverage (windowSize : ℕ) (threshold proportion : ℚ) (k : ℕ)
    (runningProbe : Bool) (a : Alignment) : Option ℕ × Option ℕ :=
  match (goodIndices (runningAvgValues
          (differencesList proportion k runningProbe a) windowSize)
        threshold).head?,
      (goodIndices (runningAvgValues
          (differencesList proportion k runningProbe a) windowSize)
        threshold).getLast? with
  | some s, some e => (some s, some (e + windowSize))
  | _, _ => (none, none)

/-- The probe index computed by the `running-probe` arm of `trim_alignment`:
`for k,v in enumerate(alignment): if v.name == 'probe': break` — the first
record whose `name` is `probe`, or the last loop index when none is. -/
def probeIdx (a : Alignment) : ℕ :=
  match a.findIdx? (fun r => r.name == "probe") with
  | some i => i
  | none => a.length - 1

/-- Python truthiness of the `bases` argument (`None` and `0` are falsy). -/
def basesTruthy (b : Option ℕ) : Prop := b.getD 0 ≠ 0

instance (b : Option ℕ) : Decidable (basesTruthy b) := by
  unfold basesTruthy; infer_instance

/-- What one iteration of the `trim_alignment` record loop does: `stop v`
models a branch that sets `self.trimmed_alignment` to `v` and `break`s (or
the loop ending), `next acc` models falling to the next record with the
records accumulated so far (`none` after `self.trimmed_alignment = None`
without a `break`), `raise e` models an uncaught Python exception. -/
inductive LoopStep where
  | stop : Option (List SeqRec) → LoopStep
  | next : Option (List SeqRec) → LoopStep
  | raise : PyErr → LoopStep
deriving DecidableEq, Repr

/-- `self.trimmed_alignment._records.append(r)`: appends when the trimmed
alignment still exists, raises `AttributeError` on `None`. -/
def appendRec (acc : Option (List SeqRec)) (r : SeqRec) : LoopStep :=
  match acc with
  | some rs => LoopStep.next (some (rs ++ [r]))
  | none => LoopStep.raise PyErr.attributeError

/-- One iteration of the per-record loop of `trim_alignment` (lines
186–233), with the `elif` branches in source order.  `startEnd` is the
`(start, end)` pair computed before the loop for the edges/running methods;
the first branch reproduces `if start >= 0 and end:` (Python 2 orders
`None < 0`, and `end` is falsy when it is `None` or `0`). -/
def trimStep (method : String) (removeProbe : Bool) (bases : Option ℕ)
    (startEnd : Option ℕ × Option ℕ) (ploc : Option (ℕ × ℕ)) (r : SeqRec)
    (acc : Option (List SeqRec)) : LoopStep :=
  if (method = "edges" ∨ method = "running" ∨ method = "running-probe") ∧
      removeProbe = false then
    match startEnd with
    | (some s, some e) =>
      if e ≠ 0 then appendRec acc (sliceRec r (s : ℤ) (e : ℤ))
      else LoopStep.stop none
    | _ => LoopStep.stop none
  else if method = "static" ∧ removeProbe = false ∧ basesTruthy bases then
    -- mid_point = len(sequence)/2; the checker gets the scalar anchor
    match baseChecker (bases.getD 0) r.seq (Loc.scalar (r.seq.length / 2)) with
    | Except.error err => LoopStep.raise err
    | Except.ok (some true) =>
        appendRec acc (sliceRec r
          ((r.seq.length / 2 : ℤ) - (bases.getD 0 : ℤ))
          ((r.seq.length / 2 : ℤ) + (bases.getD 0 : ℤ)))
    | Except.ok _ => LoopStep.next none
  else if method = "static" ∧ removeProbe = false ∧ basesTruthy bases ∧
      ploc.isSome then
    -- dead in the source: the previous branch's condition is strictly weaker
    match baseChecker (bases.getD 0) r.seq (Loc.pair (ploc.getD (0, 0))) with
    | Except.error err => LoopStep.raise err
    | Except.ok (some true) =>
        appendRec acc (sliceRec r
          (((ploc.getD (0, 0)).1 : ℤ) - (bases.getD 0 : ℤ))
          (((ploc.getD (0, 0)).2 : ℤ) + (bases.getD 0 : ℤ)))
    | Except.ok _ => LoopStep.next none
  else if removeProbe = true ∧ ploc.isSome then
    -- slice around the probe location and rebuild via _record_formatter
    match recordFormatter
        (pySliceTo r.seq ((ploc.getD (0, 0)).1 : ℤ) ++
          pySliceFrom r.seq ((ploc.getD (0, 0)).2 : ℤ)) with
    | Except.error err => LoopStep.raise err
    | Except.ok tr => appendRec acc tr
  else if method = "static" ∧ removeProbe = true ∧ basesTruthy bases ∧
      ploc.isSome then
    -- dead in the source: masked by the `remove_probe and self.ploc` branch
    match baseChecker (bases.getD 0) r.seq (Loc.pair (ploc.getD (0, 0))) with
    | Except.error err => LoopStep.raise err
    | Except.ok (some true) =>
      match recordFormatter
          (pySlice r.seq (((ploc.getD (0, 0)).1 : ℤ) - (bases.getD 0 : ℤ))
              ((ploc.getD (0, 0)).1 : ℤ) ++
            pySlice r.seq ((ploc.getD (0, 0)).2 : ℤ)
              (((ploc.getD (0, 0)).2 : ℤ) + (bases.getD 0 : ℤ))) with
      | Except.error err => LoopStep.raise err
      | Except.ok tr => appendRec acc tr
    | Except.ok _ => LoopStep.next none
  else
    LoopStep.next acc

/-- The record loop of `trim_alignment`: run `trimStep` on each record in
turn, threading the accumulated records. -/
def trimLoop (method : String) (removeProbe : Bool) (bases : Option ℕ)
    (startEnd : Option ℕ × Option ℕ) (ploc : Option (ℕ × ℕ)) :
    List SeqRec → Option (List SeqRec) → Except PyErr (Option (List SeqRec))
  | [], acc => Except.ok acc
  | r :: rest, acc =>
    match trimStep method removeProbe bases startEnd ploc r acc with
    | LoopStep.stop v => Except.ok v
    | LoopStep.raise e => Except.error e
    | LoopStep.next acc2 => trimLoop method removeProbe bases startEnd ploc rest acc2

/-- `trim_alignment(method, remove_probe, bases, window_size, threshold)`.
`ploc` stands for `self.ploc` (set by a prior `get_probe_location` call;
`none` when unset).  Note the `running-probe` arm: the source calls
`self.running_average(window_size, threshold, k, True)`, which binds the
probe index `k` POSITIONALLY to `proportion` and `True` to `k`, leaving
`running_probe` at its default `False` — so the probe-excluding branch is
never taken, and Python's `del column_values[True]` index would be 1.
The result is `Except.ok (some alignment)` on success, `Except.ok none`
when the alignment is dropped, `Except.error _` when the code raises. -/
def trimAlignment (method : String) (removeProbe : Bool) (bases : Option ℕ)
    (windowSize : ℕ) (threshold : ℚ) (ploc : Option (ℕ × ℕ)) (a : Alignment) :
    Except PyErr (Option Alignment) :=
  let startEnd : Option ℕ × Option ℕ :=
    if method = "edges" then (some (findEnds a true), some (findEnds a false))
    else if method = "running" then
      runningAverage windowSize threshold (3 / 10) 0 false a
    else if method = "running-probe" then
      runningAverage windowSize threshold ((probeIdx a : ℚ)) 1 false a
    else (none, none)
  if method = "notrim" then Except.ok (some a)
  else trimLoop method removeProbe bases startEnd ploc a (some [])

/-- The ambiguous-column indices collected by `trim_ambiguous_bases`:
columns whose symbols contain `'N'`. -/
def ambiguousBases (a : Alignment) : List ℕ :=
  (List.range (alignLength a)).filter (fun c => decide ('N' ∈ getColumn a c))

/-- The maximum-difference scan of `trim_ambiguous_bases`: fold over the
positions of the sentinel-extended index list, keeping the strictly largest
adjacent difference and its position pair (`maximum = 0`,
`maximum_pos = None` initially; ties keep the earlier pair). -/
def maxBlock (ab : List ℕ) : ℤ × Option (ℕ × ℕ) :=
  (List.range ab.length).foldl
    (fun st pos =>
      if pos + 1 < ab.length then
        if st.1 < (ab.getD (pos + 1) 0 : ℤ) - (ab.getD pos 0 : ℤ) then
          ((ab.getD (pos + 1) 0 : ℤ) - (ab.getD pos 0 : ℤ), some (pos, pos + 1))
        else st
      else st)
    (0, none)

/-- `trim_ambiguous_bases()`: pass a falsy trimmed alignment through
(`None`, and also an alignment with zero records); otherwise collect the
ambiguous columns; when none exist return the alignment verbatim; otherwise
prepend sentinel `0`, append sentinel `length − 1`, find the largest
adjacent difference, and slice every record to
`[ab[maximum_pos[0]] + 1 : ab[maximum_pos[1]]]`; with no best block the
result is `None`. -/
def trimAmbiguousBases (ta : Option Alignment) : Option Alignment :=
  match ta with
  | none => none
  | some a =>
    if a.isEmpty then some a
    else if (ambiguousBases a).isEmpty then some a
    else
      match (maxBlock (0 :: ambiguousBases a ++ [alignLength a - 1])).2 with
      | some (i, j) =>
          some (a.map (fun r =>
            sliceRec r
              (((0 :: ambiguousBases a ++ [alignLength a - 1]).getD i 0 : ℤ) + 1)
              (((0 :: ambiguousBases a ++ [alignLength a - 1]).getD j 0 : ℤ))))
      | none => none

/-! ### Concrete alignments used as claim inputs -/

/-- Two conserved reads plus a probe record that disagrees everywhere. -/
def alignC1 : Alignment :=
  [⟨"s1", "s1", "d1", "ACAC".toList⟩,
   ⟨"s2", "s2", "d2", "ACAC".toList⟩,
   ⟨"probe", "probe", "dp", "GGGG".toList⟩]

/-- Two gap-free reads of length 4. -/
def alignC2 : Alignment :=
  [⟨"s1", "s1", "d1", "ACGT".toList⟩, ⟨"s2", "s2", "d2", "ACGT".toList⟩]

/-- A read and a probe whose non-gap span is columns `[2, 6)`. -/
def alignC3 : Alignment :=
  [⟨"s1", "s1", "d1", "AACCGGTT".toList⟩,
   ⟨"probe", "probe", "dp", "--CCGG--".toList⟩]

/-- Two gap-free reads of length 2. -/
def alignC4 : Alignment :=
  [⟨"s1", "s1", "d1", "AC".toList⟩, ⟨"s2", "s2", "d2", "AC".toList⟩]

/-- One gap-free read of length 3. -/
def alignC4w : Alignment := [⟨"s1", "s1", "d1", "ACG".toList⟩]

/-- Two identical reads of length 2 — every column conserved. -/
def alignC5 : Alignment :=
  [⟨"s1", "s1", "d1", "AA".toList⟩, ⟨"s2", "s2", "d2", "AA".toList⟩]

/-- Two reads disagreeing in every column. -/
def alignC5w : Alignment :=
  [⟨"s1", "s1", "d1", "AG".toList⟩, ⟨"s2", "s2", "d2", "GA".toList⟩]

/-- One read of length 5 with its single ambiguous base at column 2
(the tie case: both candidate spans have the same sentinel difference). -/
def alignC6 : Alignment := [⟨"s1", "s1", "d1", "ACNGG".toList⟩]

/-- One read of length 5 with its single ambiguous base at column 1. -/
def alignC6w : Alignment := [⟨"s1", "s1", "d1", "ANGGG".toList⟩]

/-- Two reads with distinct ids, names and descriptions. -/
def alignC7 : Alignment :=
  [⟨"s1", "n1", "d1", "AACC".toList⟩, ⟨"s2", "n2", "d2", "AACC".toList⟩]

/-- Two reads conserved in columns 0–2 and divergent in column 3. -/
def alignC8 : Alignment :=
  [⟨"s1", "s1", "d1", "AAAC".toList⟩, ⟨"s2", "s2", "d2", "AAAG".toList⟩]

/-- One read with no ambiguous bases. -/
def alignC9 : Alignment := [⟨"s1", "s1", "d1", "ACGT".toList⟩]

/-! ### Helper lemmas -/

/-- Folding `max` of record lengths over records of one common length `L`. -/
theorem foldl_max_len (L : ℕ) :
    ∀ (a : Alignment) (m : ℕ), a ≠ [] → (∀ r ∈ a, r.seq.length = L) →
      a.foldl (fun acc r => max acc r.seq.length) m = max m L := by
  intro a
  induction a with
  | nil => intro m hne _; exact absurd rfl hne
  | cons r rest ih =>
    intro m _ h
    have hr : r.seq.length = L := h r (by simp)
    cases rest with
    | nil => simp [hr]
    | cons r2 rest2 =>
      rw [List.foldl_cons, hr,
        ih (max m L) (by simp) (fun x hx => h x (List.mem_cons_of_mem _ hx))]
      omega

/-- On a non-empty alignment whose records all have length `L`,
`get_alignment_length` is `L`. -/
theorem alignLength_eq (a : Alignment) (L : ℕ) (hne : a ≠ [])
    (h : ∀ r ∈ a, r.seq.length = L) : alignLength a = L := by
  unfold alignLength
  rw [foldl_max_len L a 0 hne h]
  omega

/-- `find?` returns the head when the predicate holds everywhere. -/
theorem find?_eq_head?_of_all {α : Type} (p : α → Bool) :
    ∀ (l : List α), (∀ x ∈ l, p x = true) → l.find? p = l.head?
  | [], _ => rfl
  | x :: xs, h => by
    rw [List.find?_cons_of_pos _ (h x (by simp)), List.head?_cons]

/-- On a gap-free alignment the forward edge scan stops at column 0. -/
theorem findEnds_forward_gapfree (a : Alignment) (L : ℕ)
    (hL : alignLength a = L) (h1 : 1 ≤ L)
    (hgap : ∀ c < L, ¬ '-' ∈ getColumn a c) : findEnds a true = 0 := by
  obtain ⟨m, rfl⟩ : ∃ m, L = m + 1 := ⟨L - 1, by omega⟩
  have hcols : findEndsCols a true = List.range (m + 1) := by
    rw [findEndsCols, if_pos rfl, hL]
  unfold findEnds
  rw [hcols, find?_eq_head?_of_all _ _ (fun c hc => by
    simp only [Bool.not_eq_true']
    exact decide_eq_false (hgap c (List.mem_range.mp hc)))]
  rw [List.range_succ_eq_map, List.head?_cons]

/-- On a gap-free alignment the backward edge scan stops at the last
column `L − 1`. -/
theorem findEnds_backward_gapfree (a : Alignment) (L : ℕ)
    (hL : alignLength a = L) (h1 : 1 ≤ L)
    (hgap : ∀ c < L, ¬ '-' ∈ getColumn a c) : findEnds a false = L - 1 := by
  obtain ⟨m, rfl⟩ : ∃ m, L = m + 1 := ⟨L - 1, by omega⟩
  have hcols : findEndsCols a false = (List.range (m + 1)).reverse := by
    rw [findEndsCols, hL]; rfl
  unfold findEnds
  rw [hcols, find?_eq_head?_of_all _ _ (fun c hc => by
    simp only [Bool.not_eq_true']
    exact decide_eq_false (hgap c (List.mem_range.mp (List.mem_reverse.mp hc))))]
  rw [List.range_succ, List.reverse_append]
  simp

/-- One slice-method iteration with a passing region check appends the
record sliced to `[start:end]`. -/
theorem trimStep_slice (method : String)
    (hm : method = "edges" ∨ method = "running" ∨ method = "running-probe")
    (bases : Option ℕ) (pl : Option (ℕ × ℕ)) (s e : ℕ) (he : e ≠ 0)
    (r : SeqRec) (rs : List SeqRec) :
    trimStep method false bases (some s, some e) pl r (some rs) =
      LoopStep.next (some (rs ++ [sliceRec r (s : ℤ) (e : ℤ)])) := by
  unfold trimStep
  rw [if_pos ⟨hm, rfl⟩]
  show (if e ≠ 0 then _ else _) = _
  rw [if_pos he]
  rfl

/-- Unfolding of the slice-method loop when the region check passes: every
record is appended sliced to `[start:end]`. -/
theorem trimLoop_slice (method : String)
    (hm : method = "edges" ∨ method = "running" ∨ method = "running-probe")
    (bases : Option ℕ) (pl : Option (ℕ × ℕ)) (s e : ℕ) (he : e ≠ 0)
    (rs : List SeqRec) : ∀ (acc : List SeqRec),
    trimLoop method false bases (some s, some e) pl rs (some acc) =
      Except.ok (some (acc ++ rs.map (fun r => sliceRec r (s : ℤ) (e : ℤ)))) := by
  induction rs with
  | nil => intro acc; simp [trimLoop]
  | cons r rest ih =>
    intro acc
    rw [trimLoop, trimStep_slice method hm bases pl s e he]
    show trimLoop method false bases (some s, some e) pl rest
      (some (acc ++ [sliceRec r (s : ℤ) (e : ℤ)])) = _
    rw [ih (acc ++ [sliceRec r (s : ℤ) (e : ℤ)])]
    simp only [List.append_assoc, List.singleton_append, List.map_cons]

/-- Membership in the selected window positions. -/
theorem mem_goodIndices (vals : List ℚ) (t : ℚ) (i : ℕ) :
    i ∈ goodIndices vals t ↔ i < vals.length ∧ t ≤ vals.getD i 0 := by
  simp [goodIndices, List.mem_filter, List.mem_range]

/-- `numpy.where` yields the indices in strictly increasing order. -/
theorem goodIndices_sorted (vals : List ℚ) (t : ℚ) :
    (goodIndices vals t).Sorted (· < ·) :=
  List.Pairwise.filter _ (List.sorted_lt_range _)

/-- Raising the threshold only removes selected positions. -/
theorem goodIndices_antitone (vals : List ℚ) (t1 t2 : ℚ) (h : t1 ≤ t2) :
    ∀ i ∈ goodIndices vals t2, i ∈ goodIndices vals t1 := by
  intro i hi
  rw [mem_goodIndices] at hi ⊢
  exact ⟨hi.1, le_trans h hi.2⟩

/-- The head of a strictly sorted list is a lower bound of its members. -/
theorem head?_le_of_sorted {l : List ℕ} (hs : l.Sorted (· < ·)) {h x : ℕ}
    (hh : l.head? = some h) (hx : x ∈ l) : h ≤ x := by
  cases l with
  | nil => simp at hx
  | cons a tl =>
    rw [List.head?_cons, Option.some.injEq] at hh
    subst hh
    rcases List.mem_cons.mp hx with rfl | hx2
    · exact le_refl _
    · exact (List.rel_of_sorted_cons hs _ hx2).le

/-- The last element of a strictly sorted list is an upper bound of its
members. -/
theorem le_getLast?_of_sorted {l : List ℕ} (hs : l.Sorted (· < ·)) {g x : ℕ}
    (hg : l.getLast? = some g) (hx : x ∈ l) : x ≤ g := by
  induction l with
  | nil => simp at hx
  | cons a tl ih =>
    cases tl with
    | nil =>
      simp at hg hx
      omega
    | cons b tl2 =>
      rw [List.getLast?_cons_cons] at hg
      rcases List.mem_cons.mp hx with rfl | hx2
      · exact (List.rel_of_sorted_cons hs g (List.mem_of_mem_getLast? hg)).le
      · exact ih hs.of_cons hg hx2

/-- The `differences` list has one entry per column. -/
theorem length_differencesList (p : ℚ) (k : ℕ) (rp : Bool) (a : Alignment) :
    (differencesList p k rp a).length = alignLength a := by
  simp [differencesList]

/-- Full convolution output length. -/
theorem length_convFull (d w : List ℚ) :
    (convFull d w).length = d.length + w.length - 1 := by
  simp [convFull]

/-- The sliced average list is empty whenever the window does not fit:
`window_size = 1` slices `[0:0]`, and `window_size > column count` slices
past the end. -/
theorem runningAvgValues_eq_nil (d : List ℕ) (W : ℕ)
    (h : W = 1 ∨ d.length < W) : runningAvgValues d W = [] := by
  rcases h with rfl | hlt
  · -- W = 1: the slice is `[0:0]`
    norm_num [runningAvgValues, pySlice, pyIdx]
  · have hW1 : 1 ≤ W := by omega
    rcases Nat.eq_or_lt_of_le hW1 with h1 | h2
    · -- W = 1 again, forced `d = []`
      rw [← h1]
      norm_num [runningAvgValues, pySlice, pyIdx]
    · -- 2 ≤ W: the slice starts at `W − 1 ≥ d.length`
      unfold runningAvgValues
      set n := (convFull (d.map (fun x : ℕ => (x : ℚ)))
          (List.replicate W (1 / (W : ℚ)))).length with hn
      have hnv : n = d.length + W - 1 := by
        rw [hn, length_convFull, List.length_map, List.length_replicate]
      have hcast : (2 : ℤ) ≤ (W : ℤ) := by exact_mod_cast h2
      apply List.drop_eq_nil_of_le
      rw [List.length_take]
      unfold pySlice at *
      simp only [pyIdx]
      rw [if_pos (show -((W : ℤ) - 1) < 0 by omega),
        if_neg (show ¬ ((W : ℤ) - 1 < 0) by omega)]
      have e1 : (-((W : ℤ) - 1) + (n : ℤ)).toNat = d.length := by omega
      have e2 : ((W : ℤ) - 1).toNat = W - 1 := by omega
      rw [e1, e2]
      exact min_le_min (by omega) (le_refl n)

/-- `running_average` returns the failure pair exactly when no window
position met the threshold. -/
theorem runningAverage_eq_of_good (W : ℕ) (t p : ℚ) (k : ℕ) (rp : Bool)
    (a : Alignment)
    (h : goodIndices (runningAvgValues (differencesList p k rp a) W) t = []) :
    runningAverage W t p k rp a = (none, none) := by
  unfold runningAverage
  rw [h]
  rfl

/-- Success of `running_average` exposes the head and last selected
positions. -/
theorem runningAverage_eq_some (W : ℕ) (t p : ℚ) (k : ℕ) (rp : Bool)
    (a : Alignment) (s e : ℕ)
    (h : runningAverage W t p k rp a = (some s, some e)) :
    (goodIndices (runningAvgValues (differencesList p k rp a) W) t).head? =
        some s ∧
      ∃ g, (goodIndices (runningAvgValues (differencesList p k rp a) W)
          t).getLast? = some g ∧ e = g + W := by
  unfold runningAverage at h
  cases hh : (goodIndices (runningAvgValues (differencesList p k rp a) W)
      t).head? with
  | none =>
    rw [hh] at h
    cases hg : (goodIndices (runningAvgValues (differencesList p k rp a) W)
        t).getLast? <;> rw [hg] at h <;> simp at h
  | some s0 =>
    rw [hh] at h
    cases hg : (goodIndices (runningAvgValues (differencesList p k rp a) W)
        t).getLast? with
    | none => rw [hg] at h; simp at h
    | some g0 =>
      rw [hg] at h
      simp only [Prod.mk.injEq, Option.some.injEq] at h
      refine ⟨?_, g0, rfl, h.2.symm⟩
      rw [h.1]

/-- Unfolding of `trim_ambiguous_bases` on a non-`None` trimmed alignment. -/
theorem trimAmbiguousBases_some (a : Alignment) :
    trimAmbiguousBases (some a) =
      (if a.isEmpty then some a
       else if (ambiguousBases a).isEmpty then some a
       else
         match (maxBlock (0 :: ambiguousBases a ++ [alignLength a - 1])).2 with
         | some (i, j) =>
             some (a.map (fun r =>
               sliceRec r
                 (((0 :: ambiguousBases a ++ [alignLength a - 1]).getD i 0 : ℤ)
                   + 1)
                 (((0 :: ambiguousBases a ++
                     [alignLength a - 1]).getD j 0 : ℤ))))
         | none => none) := rfl

/-- A range filter whose predicate singles out `k` yields `[k]`. -/
theorem filter_range_eq_single (p : ℕ → Bool) :
    ∀ (n : ℕ), ∀ k < n, (∀ c < n, (p c = true ↔ c = k)) →
      (List.range n).filter p = [k] := by
  intro n
  induction n with
  | zero => omega
  | succ m ih =>
    intro k hk h
    rw [List.range_succ, List.filter_append]
    rcases Nat.lt_or_ge k m with hkm | hkm
    · rw [ih k hkm (fun c hc => h c (by omega))]
      have hpm : p m = false := by
        cases hpm2 : p m
        · rfl
        · exact absurd ((h m (by omega)).mp hpm2) (by omega)
      simp [hpm]
    · have hkm2 : k = m := by omega
      subst hkm2
      have hpm : p k = true := (h k (by omega)).mpr rfl
      have hnil : (List.range k).filter p = [] := by
        apply List.filter_eq_nil_iff.mpr
        intro c hc
        have hc2 := List.mem_range.mp hc
        intro hpc
        exact absurd ((h c (by omega)).mp hpc) (by omega)
      simp [hnil, hpm]

/-- With no `'N'` anywhere, no ambiguous column is collected. -/
theorem ambiguousBases_eq_nil (a : Alignment)
    (h : ∀ c < alignLength a, ¬ 'N' ∈ getColumn a c) :
    ambiguousBases a = [] := by
  apply List.filter_eq_nil_iff.mpr
  intro c hc
  simp only [decide_eq_true_iff]
  exact h c (List.mem_range.mp hc)

/-- With exactly one ambiguous column `k`, the collected list is `[k]`. -/
theorem ambiguousBases_eq_single (a : Alignment) (L k : ℕ)
    (hL : alignLength a = L) (hk : k < L)
    (h : ∀ c < L, ('N' ∈ getColumn a c ↔ c = k)) :
    ambiguousBases a = [k] := by
  unfold ambiguousBases
  rw [hL]
  exact filter_range_eq_single _ L k hk (fun c hc => by
    rw [decide_eq_true_iff]; exact h c hc)

/-- The sentinel scan on `[0, k, L−1]` (the single-ambiguity shape): the
left pair wins unless the right difference is strictly larger. -/
theorem maxBlock_three (k m : ℕ) (hk : 0 < k) :
    (maxBlock [0, k, m]).2 =
      some (if (k : ℤ) < (m : ℤ) - (k : ℤ) then (1, 2) else (0, 1)) := by
  have h3 : ([0, k, m] : List ℕ).length = 3 := rfl
  unfold maxBlock
  rw [h3]
  show (List.foldl _ (0, none) [0, 1, 2]).2 = _
  simp only [List.foldl_cons, List.foldl_nil]
  dsimp only
  norm_num [List.getD_cons_zero, List.getD_cons_succ]
  split_ifs <;> rfl

/-- `trim_alignment` with the edges method resolves its region from
`_find_ends` and runs the record loop. -/
theorem trimAlignment_edges (removeProbe : Bool) (bases : Option ℕ) (W : ℕ)
    (t : ℚ) (pl : Option (ℕ × ℕ)) (a : Alignment) :
    trimAlignment "edges" removeProbe bases W t pl a =
      trimLoop "edges" removeProbe bases
        (some (findEnds a true), some (findEnds a false)) pl a (some []) := rfl

/-- A slice-method iteration whose `end` bound is `0` fails the Python
truthiness test `if start >= 0 and end:` and drops the alignment. -/
theorem trimStep_slice_zero (method : String)
    (hm : method = "edges" ∨ method = "running" ∨ method = "running-probe")
    (bases : Option ℕ) (pl : Option (ℕ × ℕ)) (s : ℕ) (r : SeqRec)
    (acc : Option (List SeqRec)) :
    trimStep method false bases (some s, some 0) pl r acc =
      LoopStep.stop none := by
  unfold trimStep
  rw [if_pos ⟨hm, rfl⟩]
  show (if (0 : ℕ) ≠ 0 then _ else _) = _
  rw [if_neg (by omega)]

/-! ### The claims -/

/-- Claim C1 (code bug): `trim_alignment` with method `running-probe` is
supposed to invoke the probe-excluding branch of `running_average` with the
probe's record index, but the source calls
`self.running_average(window_size, threshold, k, True)`, binding `k`
positionally to `proportion` and `True` to `k` while `running_probe` stays
`False`.  On `alignC1` (conserved but for the probe row) the executed call
selects nothing and the alignment is dropped, whereas the probe-excluding
computation the spec describes (`proportion = 0.3`, `k = 2`,
`running_probe = True`) selects the whole alignment. -/
theorem claim1_running_probe_call_bug :
    probeIdx alignC1 = 2 ∧
    trimAlignment "running-probe" false none 2 1 none alignC1 =
      Except.ok none ∧
    runningAverage 2 1 (3 / 10) 2 true alignC1 = (some 0, some 4) := by
  decide

/-- Claim C2 (code bug): static trimming from the midpoint anchor is
supposed to fail the `_base_checker` bounds check gracefully and drop the
alignment when `bases` overflows a flank; instead `_base_checker` executes
`len(loc)` on the integer midpoint, which raises `TypeError` for every
`bases` value, so the run is terminated by an exception rather than a
per-alignment drop. -/
theorem claim2_static_midpoint_typeerror :
    baseChecker 100 ("ACGT".toList) (Loc.scalar 2) =
      Except.error PyErr.typeError ∧
    trimAlignment "static" false (some 100) 20 (1 / 2) none alignC2 =
      Except.error PyErr.typeError := by
  decide

/-- Claim C3 (code bug): with `method='static'`, `remove_probe=True` and an
in-bounds `bases`, the claimed flank-extension path
(`seq[ploc[0]-bases:ploc[0]] + seq[ploc[1]:ploc[1]+bases]`) is dead code:
the earlier `elif remove_probe and self.ploc` branch matches first and does
plain probe removal, and that branch then raises `NameError` inside
`_record_formatter` (unbound name `sequence`).  On `alignC3` with
`ploc = (2, 6)` and `bases = 1` the call errors instead of producing the
two one-base flanks. -/
theorem claim3_static_remove_probe_masked :
    getProbeLocation alignC3 = some (2, 6) ∧
    trimAlignment "static" true (some 1) 20 (1 / 2)
        (getProbeLocation alignC3) alignC3 =
      Except.error PyErr.nameError := by
  decide

/-- Claim C7 (code bug): record metadata survives the slice-based trims
(first conjunct: the edges trim of `alignC7` keeps every id, name and
description), but the probe-removal path cannot preserve anything: it
raises `NameError` in `_record_formatter` before any record is rebuilt
(second conjunct). -/
theorem claim7_metadata_nameerror :
    trimAlignment "edges" false none 20 (1 / 2) none alignC7 =
      Except.ok (some [⟨"s1", "n1", "d1", "AAC".toList⟩,
        ⟨"s2", "n2", "d2", "AAC".toList⟩]) ∧
    trimAlignment "running" true none 20 (1 / 2) (some (1, 3)) alignC7 =
      Except.error PyErr.nameError := by
  decide

/-- Claim C10 (confirmed): with `window_size = 1` the slice
`[window_size-1:-(window_size-1)]` is `[0:0]`, so the average list is empty
and `running_average` always returns `(None, None)`, for every alignment,
threshold, proportion, probe index and branch flag. -/
theorem claim10_window_one_failure (t p : ℚ) (k : ℕ) (rp : Bool)
    (a : Alignment) : runningAverage 1 t p k rp a = (none, none) := by
  apply runningAverage_eq_of_good
  rw [runningAvgValues_eq_nil _ _ (Or.inl rfl)]
  rfl

/-- Claim C5 counterexample: the claim asserts failure whenever
`window_size ≥ column count`, but at `window_size = column count` the single
full-window average can meet the threshold: on the fully conserved
`alignC5` (2 columns) with `window_size = 2` the result is
`(some 0, some 2)`, not `(None, None)`. -/
theorem claim5_counterexample :
    alignLength alignC5 ≤ 2 ∧
    runningAverage 2 (1 / 2) (3 / 10) 0 false alignC5 = (some 0, some 2) := by
  decide

/-- Claim C5 (amended): `running_average` returns `(None, None)` whenever no
windowed-average position meets the threshold, and the average list is
empty — hence the result is the failure pair — whenever `window_size`
strictly exceeds the column count (at `window_size = column count` the
single full-window average can still succeed). -/
theorem claim5_running_failure_amended (W : ℕ) (t p : ℚ) (k : ℕ) (rp : Bool)
    (a : Alignment) :
    (goodIndices (runningAvgValues (differencesList p k rp a) W) t = [] →
      runningAverage W t p k rp a = (none, none)) ∧
    (alignLength a < W → runningAverage W t p k rp a = (none, none)) := by
  constructor
  · exact runningAverage_eq_of_good W t p k rp a
  · intro hlt
    apply runningAverage_eq_of_good
    rw [runningAvgValues_eq_nil _ _
      (Or.inr (by rw [length_differencesList]; exact hlt))]
    rfl

/-- Claim C5 witness: on the nowhere-conserved `alignC5w` both failure modes
of the amended claim fire — no position meets threshold 1 at window 2, and
window 5 exceeds the 2 columns. -/
theorem claim5_witness :
    runningAverage 2 1 (3 / 10) 0 false alignC5w = (none, none) ∧
    runningAverage 5 1 (3 / 10) 0 false alignC5w = (none, none) :=
  ⟨(claim5_running_failure_amended 2 1 (3 / 10) 0 false alignC5w).1 (by decide),
   (claim5_running_failure_amended 5 1 (3 / 10) 0 false alignC5w).2 (by decide)⟩

/-- Claim C8 (confirmed): for one alignment, window size and proportion,
raising the threshold never widens the selected span: if both thresholds
succeed, the span at the higher threshold is at most as wide, because the
selected index set at the higher threshold is a subset of the lower one's
and `numpy.where` keeps indices sorted. -/
theorem claim8_threshold_monotone (W : ℕ) (t1 t2 p : ℚ) (k : ℕ) (rp : Bool)
    (a : Alignment) (s1 e1 s2 e2 : ℕ) (ht : t1 ≤ t2)
    (h1 : runningAverage W t1 p k rp a = (some s1, some e1))
    (h2 : runningAverage W t2 p k rp a = (some s2, some e2)) :
    e2 - s2 ≤ e1 - s1 := by
  obtain ⟨hh1, g1, hg1, he1⟩ := runningAverage_eq_some W t1 p k rp a s1 e1 h1
  obtain ⟨hh2, g2, hg2, he2⟩ := runningAverage_eq_some W t2 p k rp a s2 e2 h2
  have hs2mem : s2 ∈ goodIndices
      (runningAvgValues (differencesList p k rp a) W) t2 :=
    List.mem_of_mem_head? hh2
  have hg2mem : g2 ∈ goodIndices
      (runningAvgValues (differencesList p k rp a) W) t2 :=
    List.mem_of_mem_getLast? hg2
  have hs1le : s1 ≤ s2 :=
    head?_le_of_sorted (goodIndices_sorted _ t1) hh1
      (goodIndices_antitone _ t1 t2 ht _ hs2mem)
  have hle1 : g2 ≤ g1 :=
    le_getLast?_of_sorted (goodIndices_sorted _ t1) hg1
      (goodIndices_antitone _ t1 t2 ht _ hg2mem)
  have hs2le : s2 ≤ g2 :=
    head?_le_of_sorted (goodIndices_sorted _ t2) hh2 hg2mem
  omega

/-- Claim C8 witness: on `alignC8` with window 2, threshold 1/2 selects span
`(0, 4)` and threshold 1 selects span `(0, 3)`; the monotonicity theorem
applies and the higher-threshold width is smaller. -/
theorem claim8_witness :
    runningAverage 2 (1 / 2) (3 / 10) 0 false alignC8 = (some 0, some 4) ∧
    runningAverage 2 1 (3 / 10) 0 false alignC8 = (some 0, some 3) ∧
    3 - 0 ≤ 4 - 0 :=
  ⟨by decide, by decide,
   claim8_threshold_monotone 2 (1 / 2) 1 (3 / 10) 0 false alignC8 0 4 0 3
     (by norm_num) (by decide) (by decide)⟩

/-- Claim C9 (confirmed): with no ambiguous column the Ambiguity Refiner
returns the trimmed alignment verbatim, applying it twice still returns the
same alignment, and a `None` input passes through unchanged. -/
theorem claim9_refiner_identity (a : Alignment)
    (h : ∀ c < alignLength a, ¬ 'N' ∈ getColumn a c) :
    trimAmbiguousBases (some a) = some a ∧
    trimAmbiguousBases (trimAmbiguousBases (some a)) = some a ∧
    trimAmbiguousBases (none : Option Alignment) = none := by
  have hab : ambiguousBases a = [] := ambiguousBases_eq_nil a h
  have h1 : trimAmbiguousBases (some a) = some a := by
    rw [trimAmbiguousBases_some]
    by_cases hemp : a.isEmpty
    · rw [if_pos hemp]
    · rw [if_neg hemp, hab]
      simp
  exact ⟨h1, by rw [h1, h1], rfl⟩

/-- Claim C9 witness: the refiner leaves the ambiguity-free `alignC9`
untouched. -/
theorem claim9_witness : trimAmbiguousBases (some alignC9) = some alignC9 :=
  (claim9_refiner_identity alignC9 (by decide)).1

/-- Claim C4 counterexample: on the gap-free two-column `alignC4` the edges
trim does not return the input unchanged — each record loses its last
column because the inclusive scan result `end = last_column` is used as an
exclusive slice bound. -/
theorem claim4_counterexample :
    trimAlignment "edges" false none 20 (1 / 2) none alignC4 =
      Except.ok (some [⟨"s1", "s1", "d1", ['A']⟩,
        ⟨"s2", "s2", "d2", ['A']⟩]) ∧
    trimAlignment "edges" false none 20 (1 / 2) none alignC4 ≠
      Except.ok (some alignC4) := by
  decide

/-- Claim C4 (amended): on a gap-free alignment with `L` columns the edge
scans return the region `(0, L−1)` with `L−1` the last column index, but
the per-record slice `sequence[start:end]` is half-open, so every record
keeps only columns `0..L−2` (the last column is dropped); when `L = 1` the
`end` bound `0` is falsy in `if start >= 0 and end:` and the whole
alignment is dropped instead of returned unchanged. -/
theorem claim4_edges_gapfree_amended (a : Alignment) (L W : ℕ) (t : ℚ)
    (pl : Option (ℕ × ℕ)) (hne : a ≠ []) (hL : 1 ≤ L)
    (hrect : ∀ r ∈ a, r.seq.length = L)
    (hgap : ∀ c < L, ¬ '-' ∈ getColumn a c) :
    findEnds a true = 0 ∧ findEnds a false = L - 1 ∧
    trimAlignment "edges" false none W t pl a =
      Except.ok (if L = 1 then none
        else some (a.map (fun r => sliceRec r 0 ((L : ℤ) - 1)))) := by
  have hAL : alignLength a = L := alignLength_eq a L hne hrect
  have hf := findEnds_forward_gapfree a L hAL hL hgap
  have hb := findEnds_backward_gapfree a L hAL hL hgap
  refine ⟨hf, hb, ?_⟩
  rw [trimAlignment_edges, hf, hb]
  rcases Nat.eq_or_lt_of_le hL with h1 | h2
  · rw [if_pos h1.symm]
    obtain ⟨r, rest, rfl⟩ := List.exists_cons_of_ne_nil hne
    have h0 : L - 1 = 0 := by omega
    rw [h0, trimLoop,
      trimStep_slice_zero "edges" (Or.inl rfl) none pl 0 r (some [])]
  · rw [if_neg (by omega : ¬ L = 1)]
    rw [trimLoop_slice "edges" (Or.inl rfl) none pl 0 (L - 1) (by omega) a []]
    simp only [List.nil_append, Nat.cast_zero,
      Nat.cast_sub (show 1 ≤ L by omega), Nat.cast_one]

/-- Claim C4 witness: the length-3 gap-free `alignC4w` keeps columns 0–1 of
its single record. -/
theorem claim4_witness :
    trimAlignment "edges" false none 20 (1 / 2) none alignC4w =
      Except.ok (some [⟨"s1", "s1", "d1", ['A', 'C']⟩]) := by
  have h := claim4_edges_gapfree_amended alignC4w 3 20 (1 / 2) none
    (by decide) (by decide) (by decide) (by decide)
  exact h.2.2.trans (by decide)

/-- Claim C6 counterexample: `alignC6` has its single ambiguous column at
`k = 2` in 5 columns, a tie between the claimed candidate spans `[0,2)` and
`(2,5)`; the claim's leftmost tie-break would keep columns `{0,1}` (`"AC"`),
but the refiner returns only column 1 (`"C"`): the `+1`-shifted sentinels
drop column 0 of a left span and column `L−1` of a right span. -/
theorem claim6_counterexample :
    trimAmbiguousBases (some alignC6) = some [⟨"s1", "s1", "d1", ['C']⟩] ∧
    (some [(⟨"s1", "s1", "d1", ['C']⟩ : SeqRec)] : Option Alignment) ≠
      some [(⟨"s1", "s1", "d1", ['A', 'C']⟩ : SeqRec)] := by
  decide

/-- Claim C6 (amended): with exactly one ambiguous column `k`
(`0 < k < L−1`), the refiner compares sentinel differences `k − 0` and
`(L−1) − k` and keeps the leftmost on ties, but the produced spans are the
sentinel-shifted `[1, k)` (left) and `[k+1, L−1)` (right): column 0 is
always dropped from a left span and column `L−1` from a right span, because
the sentinels `0` and `L−1` are treated like ambiguous positions. -/
theorem claim6_single_ambiguity_amended (a : Alignment) (L k : ℕ)
    (hne : a ≠ []) (hrect : ∀ r ∈ a, r.seq.length = L)
    (hk0 : 0 < k) (hkL : k < L - 1)
    (hamb : ∀ c < L, ('N' ∈ getColumn a c ↔ c = k)) :
    trimAmbiguousBases (some a) =
      some (if (k : ℤ) < (L : ℤ) - 1 - (k : ℤ)
        then a.map (fun r => sliceRec r ((k : ℤ) + 1) ((L : ℤ) - 1))
        else a.map (fun r => sliceRec r 1 (k : ℤ))) := by
  have hL2 : 2 ≤ L := by omega
  have hAL : alignLength a = L := alignLength_eq a L hne hrect
  have hab : ambiguousBases a = [k] :=
    ambiguousBases_eq_single a L k hAL (by omega) hamb
  rw [trimAmbiguousBases_some, hab, hAL]
  rw [if_neg (show ¬ a.isEmpty = true by
    simp only [List.isEmpty_iff]; exact hne)]
  rw [if_neg (show ¬ ([k] : List ℕ).isEmpty = true by simp)]
  have hshape : ((0 : ℕ) :: [k] ++ [L - 1]) = [0, k, L - 1] := rfl
  rw [hshape, maxBlock_three k (L - 1) hk0]
  rw [show ((L - 1 : ℕ) : ℤ) = (L : ℤ) - 1 from by
    rw [Nat.cast_sub (by omega), Nat.cast_one]]
  by_cases hc : (k : ℤ) < (L : ℤ) - 1 - (k : ℤ)
  · rw [if_pos hc, if_pos hc]
    show some (a.map (fun r =>
      sliceRec r ((([0, k, L - 1] : List ℕ).getD 1 0 : ℤ) + 1)
        (([0, k, L - 1] : List ℕ).getD 2 0 : ℤ))) = _
    simp only [List.getD_cons_zero, List.getD_cons_succ]
    rw [show ((L - 1 : ℕ) : ℤ) = (L : ℤ) - 1 from by
      rw [Nat.cast_sub (by omega), Nat.cast_one]]
  · rw [if_neg hc, if_neg hc]
    show some (a.map (fun r =>
      sliceRec r ((([0, k, L - 1] : List ℕ).getD 0 0 : ℤ) + 1)
        (([0, k, L - 1] : List ℕ).getD 1 0 : ℤ))) = _
    simp only [List.getD_cons_zero, List.getD_cons_succ, Nat.cast_zero,
      zero_add]

/-- Claim C6 witness: `alignC6w` (ambiguity at column 1 of 5) refines to the
right span, columns 2–3 of the record. -/
theorem claim6_witness :
    trimAmbiguousBases (some alignC6w) =
      some [⟨"s1", "s1", "d1", ['G', 'G']⟩] := by
  have h := claim6_single_ambiguity_amended alignC6w 5 1 (by decide)
    (by decide) (by decide) (by decide) (by decide)
  exact h.trans (by decide)

end Muscle
